import Mathlib

/-!
Shallow embedding of the client-side metadata path of the distributed
filesystem client (directory operations module, `kernel/dir.c`), together
with theorems settling the specification claims about it.

The embedding translates the source functions into Lean definitions:
machine integers become `Nat`/`Int` with explicit reductions where overflow
or sign matters, pointer-returning fallible functions become `Except`,
and kernel helpers that live outside the given sources (lease validity,
fragment primitives) become explicit state fields or definitions modelled
from the specification, each marked as such.
-/

/-! ## Error codes (Linux errno values used by the source) -/

def EINVAL : Int := 22

def ENOENT : Int := 2

def ESTALE : Int := 116

/-! ## Dentry revalidation (`ceph_dentry_revalidate`)

The source reads the parent directory inode version (`ceph_inode(dir)->i_version`),
the dentry recorded version (`dentry->d_time`), and calls two helpers that are
declared outside this module: `ceph_inode_lease_valid(dir, CEPH_LOCK_ICONTENT)`
and `ceph_dentry_lease_valid(dentry)`.  The state record carries the values
these reads and calls produce at the moment of the check. -/

structure RevalidateState where
  dir_i_version : Nat
  d_time : Nat
  dir_icontent_lease_valid : Bool
  dentry_lease_valid : Bool
  deriving DecidableEq, Repr

/-- Embedding of `ceph_dentry_revalidate` (dir.c lines 634-656): returns 1
when the parent directory version matches `d_time` AND the directory holds a
valid ICONTENT lease, or when the dentry has its own valid lease; otherwise
drops the dentry and returns 0. -/
def ceph_dentry_revalidate (s : RevalidateState) : Bool :=
  if s.dir_i_version == s.d_time && s.dir_icontent_lease_valid then
    true
  else if s.dentry_lease_valid then
    true
  else
    false

/-! ## Directory position (cursor) encoding (`make_fpos` and friends)

`loff_t` is a signed 64-bit integer; the embedding carries the 64-bit
bit pattern as a `Nat` below `2 ^ 64`.  `frag` and `off` are C `unsigned`
(32-bit) values.  The C right shift `p >> 32` on the signed `loff_t` is an
arithmetic shift, i.e. flooring division of the signed value, whose result
is then converted to `unsigned` (reduction modulo `2 ^ 32`). -/

/-- Signed value of a 64-bit pattern (two-complement reading of `loff_t`). -/
def loff_toInt (p : Nat) : Int :=
  if p < 2 ^ 63 then (p : Int) else (p : Int) - 2 ^ 64

/-- Embedding of `make_fpos` (dir.c lines 101-104): `((loff_t)frag << 32) | (loff_t)off`,
as a 64-bit pattern. -/
def make_fpos (frag off : Nat) : Nat :=
  ((frag <<< 32) ||| off) % 2 ^ 64

/-- Embedding of `fpos_frag` (dir.c lines 105-108): `p >> 32` on the signed
value, converted to `unsigned`. -/
def fpos_frag (p : Nat) : Nat :=
  (((loff_toInt p).fdiv (2 ^ 32)) % (2 ^ 32 : Int)).toNat

/-- Embedding of `fpos_off` (dir.c lines 109-112): `p & 0xffffffff`. -/
def fpos_off (p : Nat) : Nat :=
  p &&& 0xffffffff

/-! ## Path construction (`ceph_build_dentry_path`)

A dentry chain records the target dentry and its ancestors up to a root
(`IS_ROOT`) dentry; the `corrupt` form stands for a NULL `d_parent`
reference.  Each dentry carries its name, the inode number behind
`d_inode` (meaningful when `has_inode` is set, mirroring a non-NULL
`d_inode` pointer), and `revalid`, the outcome `ceph_dentry_revalidate`
produces for it during the first (length) pass.  Because the second
(fill) pass of the source never calls revalidate but may observe a
concurrently mutated tree, each retry attempt carries two chains: the
snapshot seen by the length pass and the snapshot seen by the fill
pass. -/

structure Dentry where
  name : List Char
  ino : Nat
  has_inode : Bool
  revalid : Bool
  deriving DecidableEq, Repr

inductive DChain where
  | corrupt : DChain
  | droot : Dentry → DChain
  | dnode : Dentry → DChain → DChain
  deriving DecidableEq, Repr

/-- The break condition of the first pass (dir.c lines 42-44):
`temp->d_inode && !ceph_dentry_revalidate(temp, 0)`. -/
def stop_walk (d : Dentry) : Bool :=
  d.has_inode && !d.revalid

/-- First pass of `ceph_build_dentry_path` (dir.c lines 40-51): walk toward
the root accumulating `1 + d_name.len` per accepted dentry, stopping at the
first dentry with an inode that fails revalidation; a NULL parent mid-walk
yields `-EINVAL`. -/
def path_len_walk : DChain → Except Int Nat
  | .corrupt => .error EINVAL
  | .droot _ => .ok 0
  | .dnode d p =>
    if stop_walk d then .ok 0
    else
      match path_len_walk p with
      | .error e => .error e
      | .ok l => .ok (l + (1 + d.name.length))

/-- Second pass of `ceph_build_dentry_path` (dir.c lines 58-78): fill the
buffer backwards from position `pos`, prefixing a slash before every
component except the first; the loop exits at a root dentry or at
position 0, breaks when a component no longer fits (`pos` gone negative),
and fails with `-EINVAL` on a NULL parent.  Returns the final position,
the characters written, and the dentry `temp` points at on exit. -/
def path_fill_walk : DChain → Int → Except Int (Int × List Char × Dentry)
  | .corrupt, _ => .error EINVAL
  | .droot d, pos => .ok (pos, [], d)
  | .dnode d p, pos =>
    if pos = 0 then .ok (0, [], d)
    else
      let pos1 : Int := pos - d.name.length
      if pos1 < 0 then .ok (pos1, [], d)
      else
        match path_fill_walk p (if pos1 = 0 then 0 else pos1 - 1) with
        | .error e => .error e
        | .ok (pfin, acc, base) =>
          .ok (pfin, acc ++ (if pos1 = 0 then [] else ['/']) ++ d.name, base)

structure PathResult where
  path : List Char
  plen : Nat
  base : Nat
  deriving DecidableEq, Repr

/-- One iteration of the retry loop of `ceph_build_dentry_path`
(dir.c lines 39-88): run the length pass on the chain it observes, then the
fill pass on the chain it observes; when the final position is nonzero the
partial path is discarded and `none` signals a restart (`goto retry`). -/
def build_attempt (c1 c2 : DChain) : Except Int (Option PathResult) :=
  match path_len_walk c1 with
  | .error e => .error e
  | .ok rawlen =>
    let len : Nat := if rawlen = 0 then 0 else rawlen - 1
    match path_fill_walk c2 (len : Int) with
    | .error e => .error e
    | .ok (pfin, acc, base) =>
      if pfin ≠ 0 then .ok none
      else .ok (some ⟨acc, len, base.ino⟩)

/-- The retry loop: each attempt observes a possibly different pair of
snapshots of the dentry chain; a detected mismatch moves to the next
attempt.  An exhausted snapshot list means the loop is still retrying
(`.ok none`): the source loops forever under sustained concurrent
mutation. -/
def build_retry : List (DChain × DChain) → Except Int (Option PathResult)
  | [] => .ok none
  | (c1, c2) :: rest =>
    match build_attempt c1 c2 with
    | .ok none => build_retry rest
    | r => r

/-- Embedding of `ceph_build_dentry_path` (dir.c lines 30-95): a NULL
starting dentry yields `-EINVAL` (line 36-37); otherwise the retry loop
runs over the successive snapshots of the chain. -/
def ceph_build_dentry_path : Option (List (DChain × DChain)) → Except Int (Option PathResult)
  | none => .error EINVAL
  | some attempts => build_retry attempts

/-! Declarative characterisation of a race-free walk, following the words
of the specification: the accumulated components are the names of the
maximal trusted prefix of the chain, the base identity is the inode of the
first untrustworthy ancestor (or of the root), and the path writes those
components in root-to-leaf order separated by slashes with no leading
separator. -/

def trusted_names : DChain → List (List Char)
  | .corrupt => []
  | .droot _ => []
  | .dnode d p => if d.revalid then d.name :: trusted_names p else []

def stop_dentry : DChain → Dentry
  | .corrupt => ⟨[], 0, false, false⟩
  | .droot d => d
  | .dnode d p => if d.revalid then stop_dentry p else d

def join_slash : List (List Char) → List Char
  | [] => []
  | [n] => n
  | n :: ns => n ++ '/' :: join_slash ns

def spec_path (c : DChain) : List Char :=
  join_slash (trusted_names c).reverse

/-- Well-formedness of a chain snapshot: it reaches a root (no NULL parent),
every dentry has a bound inode, and every name is nonempty, as the VFS
guarantees for hashed dentries. -/
def chain_ok : DChain → Bool
  | .corrupt => false
  | .droot d => d.has_inode
  | .dnode d p => d.has_inode && !d.name.isEmpty && chain_ok p

/-- A length-pass walk that reaches a NULL parent reference before stopping. -/
def walk_hits_corrupt : DChain → Bool
  | .corrupt => true
  | .droot _ => false
  | .dnode d p => !stop_walk d && walk_hits_corrupt p

/-! ## Fragmented directory enumeration (`ceph_readdir`)

The fragment primitives (`frag_value`, `frag_mask`, `frag_is_leftmost`,
`frag_next`, `ceph_choose_frag`) are declared in headers outside the given
sources; they are modelled from the specification: a FragmentId is a
`(value, mask)` pair over the 32-bit hash space with `value &&& mask =
value`, the leftmost fragment is the one containing hash value 0, a
fragment is last exactly when `value = mask`, and the fragments of a
directory partition the hash space with `next` returning the fragment
immediately following the current one. -/

structure Frag where
  value : Nat
  mask : Nat
  deriving DecidableEq, Repr

structure DirEntry where
  name : List Char
  ino : Nat
  deriving DecidableEq, Repr

def frag_value (f : Frag) : Nat :=
  f.value

def frag_mask (f : Frag) : Nat :=
  f.mask

/-- Modelled from the spec: `frag_is_leftmost` is missing from the given
sources; the leftmost fragment is the one containing hash value 0, i.e. the
one whose value is 0. -/
def frag_is_leftmost (f : Frag) : Bool :=
  f.value == 0

/-- Modelled from the spec: `frag_next` is missing from the given sources;
a fragment `(value, mask)` covers the hash range starting at `value` of
width `2 ^ 32 - mask`, so the immediately following fragment starts at
`value + (2 ^ 32 - mask)`.  The concrete next fragment is resolved against
the directory fragment tree (`ceph_choose_frag`, modelled by the `choose`
parameter below). -/
def frag_next_value (f : Frag) : Nat :=
  f.value + (2 ^ 32 - f.mask)

/-- The `while (off+skew < rinfo->dir_nr)` emission loop of `ceph_readdir`
(dir.c lines 185-202): emit each remaining entry with cursor
`make_fpos(frag, off)`, advancing `off` per entry. -/
def emit_entries (f : Frag) : List DirEntry → Nat → List (List Char × Nat)
  | [], _ => []
  | e :: rest, off => (e.name, make_fpos (frag_value f) off) :: emit_entries f rest (off + 1)

/-- Embedding of `ceph_readdir` (dir.c lines 114-215).  `choose` models
`ceph_choose_frag`, resolving a fragment value against the directory
fragment tree; `listing` models the per-fragment reply held in
`fi->last_readdir`; `has_parent` models `filp->f_dentry->d_parent != NULL`;
the consumer (`filldir`) accepts every entry; `fuel` bounds the number of
`goto nextfrag` iterations (the fragments of a directory are finite).
With the first (leftmost) fragment, offset 0 synthesizes `.` with cursor
`make_fpos(0, 0)` and offset 1 synthesizes `..` with cursor
`make_fpos(0, 1)`, after which entries are served from `off + skew` with
`skew = -2`; a non-leftmost fragment serves `entries[off]` directly.  When
the fragment value differs from its mask the walk restarts at the next
fragment with offset 0; otherwise the enumeration is done. -/
def ceph_readdir : Nat → (Nat → Frag) → (Frag → List DirEntry) → Bool → Nat → Nat →
    List (List Char × Nat)
  | 0, _, _, _, _, _ => []
  | fuel + 1, choose, listing, has_parent, v, off =>
    let f := choose v
    let dots :=
      if frag_is_leftmost f then
        (if off = 0 then [(['.'], make_fpos 0 0)] else []) ++
          (if off ≤ 1 && has_parent then [(['.', '.'], make_fpos 0 1)] else [])
      else []
    let off1 := if frag_is_leftmost f && off ≤ 1 then 2 else off
    let start := if frag_is_leftmost f then off1 - 2 else off1
    dots ++ emit_entries f ((listing f).drop start) off1 ++
      (if frag_value f ≠ frag_mask f then
        ceph_readdir fuel choose listing has_parent (frag_next_value f) 0
      else [])

/-! ## Mutating operations: effect sequences

Each mutating entry point of dir.c is a straight-line function whose
externally visible effects happen in program order; the embedding
transcribes that order as a list of actions, parameterised by the values
that steer its branches: whether request creation succeeded (`req_ok`,
i.e. `!IS_ERR(req)`), the dispatch result `err` (0 or a negative errno),
and the number of trace entries in the reply (`trace_numd`).
`lease_release_parent_content` stands for the
`ceph_mdsc_lease_release` call on the affected parent directory whose mask
includes `CEPH_LOCK_ICONTENT` (for unlink and rename the mask also carries
`CEPH_LOCK_DN`); `lease_release_ilink` stands for the release of
`CEPH_LOCK_ILINK` on the target inode; `dispatch` is
`ceph_mdsc_do_request`, the hand-off to the network. -/

inductive MdsOp where
  | lstat
  | mknod
  | symlink
  | mkdir
  | link
  | unlink
  | rmdir
  | rename
  | readdir
  deriving DecidableEq, Repr

inductive Eff where
  | build_path
  | create_request (op : MdsOp)
  | lease_release_parent_content
  | lease_release_ilink
  | dispatch
  | do_lookup
  | d_drop
  | d_instantiate
  | inc_nlink
  | drop_nlink
  | d_move
  | dput_extra
  deriving DecidableEq, Repr

def S_IFMT : Nat := 0o170000

def S_IFDIR : Nat := 0o40000

/-- The opcode selection of `ceph_unlink` (dir.c lines 548-549):
`(dentry->d_inode->i_mode & S_IFMT) == S_IFDIR ? CEPH_MDS_OP_RMDIR :
CEPH_MDS_OP_UNLINK`. -/
def ceph_unlink_op (mode : Nat) : MdsOp :=
  if mode &&& S_IFMT = S_IFDIR then .rmdir else .unlink

/-- The exit status of `ceph_mknod` (dir.c lines 376-394): on a successful
dispatch with an empty trace the fallback lookup runs, and if it finds the
name bound (`d` non-null, i.e. spliced to another dentry) the call fails
with `-ESTALE`. -/
def ceph_mknod_result (err : Int) (trace_numd : Nat) (lookup_found : Bool) : Int :=
  if err = 0 ∧ trace_numd = 0 ∧ lookup_found then -ESTALE else err

/-- Effect sequence of `ceph_mknod` (dir.c lines 346-395). -/
def ceph_mknod_actions (req_ok : Bool) (err : Int) (trace_numd : Nat)
    (lookup_found : Bool) : List Eff :=
  if req_ok then
    [.build_path, .create_request .mknod, .lease_release_parent_content, .dispatch] ++
      (if err = 0 ∧ trace_numd = 0 then [.do_lookup] else []) ++
      (if ceph_mknod_result err trace_numd lookup_found ≠ 0 then [.d_drop] else [])
  else
    [.build_path, .create_request .mknod, .d_drop]

/-- Effect sequence of `ceph_symlink` (dir.c lines 415-447). -/
def ceph_symlink_actions (req_ok : Bool) (err : Int) : List Eff :=
  if req_ok then
    [.build_path, .create_request .symlink, .lease_release_parent_content, .dispatch] ++
      (if err ≠ 0 then [.d_drop] else [])
  else
    [.build_path, .create_request .symlink, .d_drop]

/-- Effect sequence of `ceph_mkdir` (dir.c lines 449-483). -/
def ceph_mkdir_actions (req_ok : Bool) (err : Int) : List Eff :=
  if req_ok then
    [.build_path, .create_request .mkdir, .lease_release_parent_content, .dispatch] ++
      (if err < 0 then [.d_drop] else [])
  else
    [.build_path, .create_request .mkdir, .d_drop]

/-- Effect sequence of `ceph_link` (dir.c lines 485-536): on a failed
dispatch the dentry is dropped; on success with an empty trace the link
count of the existing inode is speculatively incremented and the new dentry
instantiated to it, with no fallback lookup. -/
def ceph_link_actions (req_ok : Bool) (err : Int) (trace_numd : Nat) : List Eff :=
  if req_ok then
    [.build_path, .build_path, .create_request .link, .lease_release_parent_content,
      .dispatch] ++
      (if err ≠ 0 then [.d_drop]
      else if trace_numd = 0 then [.inc_nlink, .d_instantiate]
      else [])
  else
    [.build_path, .build_path, .create_request .link, .d_drop]

/-- Effect sequence of `ceph_unlink` (dir.c lines 538-577), serving both
unlink and rmdir according to the mode of the bound inode. -/
def ceph_unlink_actions (mode : Nat) (req_ok : Bool) (err : Int)
    (trace_numd : Nat) : List Eff :=
  if req_ok then
    [.build_path, .create_request (ceph_unlink_op mode), .lease_release_parent_content,
      .lease_release_ilink, .dispatch] ++
      (if err = -ENOENT then []
      else if trace_numd = 0 then [.drop_nlink, .dput_extra]
      else [])
  else
    [.build_path, .create_request (ceph_unlink_op mode)]

/-- Effect sequence of `ceph_rename` (dir.c lines 579-626). -/
def ceph_rename_actions (req_ok : Bool) (err : Int) (trace_numd : Nat)
    (new_has_inode : Bool) : List Eff :=
  if req_ok then
    [.build_path, .build_path, .create_request .rename, .lease_release_parent_content] ++
      (if new_has_inode then [.lease_release_ilink] else []) ++ [.dispatch] ++
      (if err = 0 ∧ trace_numd = 0 then
        (if new_has_inode then [.dput_extra] else []) ++ [.d_move]
      else [])
  else
    [.build_path, .build_path, .create_request .rename]

/-- Scanning the effect sequence from the start, a release of the parent
content lease is reached before any dispatch (true also when the sequence
never dispatches). -/
def lease_released_before_dispatch : List Eff → Bool
  | [] => true
  | .dispatch :: _ => false
  | .lease_release_parent_content :: _ => true
  | _ :: rest => lease_released_before_dispatch rest

/-! ## Registration table and lookup completion -/

inductive VfsFn where
  | ceph_lookup
  | ceph_getattr
  | ceph_setattr
  | ceph_setxattr
  | ceph_getxattr
  | ceph_listxattr
  | ceph_removexattr
  | ceph_mknod
  | ceph_symlink
  | ceph_mkdir
  | ceph_link
  | ceph_unlink
  | ceph_rename
  | ceph_create
  deriving DecidableEq, Repr

structure InodeOperations where
  lookup : VfsFn
  getattr : VfsFn
  setattr : VfsFn
  setxattr : VfsFn
  getxattr : VfsFn
  listxattr : VfsFn
  removexattr : VfsFn
  mknod : VfsFn
  symlink : VfsFn
  mkdir : VfsFn
  link : VfsFn
  unlink : VfsFn
  rmdir : VfsFn
  rename : VfsFn
  create : VfsFn
  deriving DecidableEq, Repr

/-- Embedding of the `ceph_dir_iops` operations table (dir.c lines 720-736):
both the unlink and the rmdir slots point at `ceph_unlink`. -/
def ceph_dir_iops : InodeOperations :=
  ⟨.ceph_lookup, .ceph_getattr, .ceph_setattr, .ceph_setxattr, .ceph_getxattr,
    .ceph_listxattr, .ceph_removexattr, .ceph_mknod, .ceph_symlink, .ceph_mkdir,
    .ceph_link, .ceph_unlink, .ceph_unlink, .ceph_rename, .ceph_create⟩

/-- What the caller of a lookup receives. -/
inductive LookupRet where
  | err_ret (e : Int)
  | spliced
  | same_dentry
  deriving DecidableEq, Repr

/-- The cache binding of the looked-up name after the reply is applied. -/
inductive Binding where
  | unknown
  | negative
  | bound
  deriving DecidableEq, Repr

/-- Embedding of `ceph_finish_lookup` (dir.c lines 248-276).
`dentry_has_inode` models `dentry->d_inode != NULL` at reply time;
`r_last_spliced` models `fill_trace` having pointed `req->r_last_dentry` at
a different dentry on the non-ENOENT path.  On `-ENOENT` with an empty
trace the dentry is bound negative: either `d_add(dentry, NULL)` when it
had no inode (the caller keeps the same dentry), or it is dropped and a
fresh negative dentry is hashed in its place (the caller receives the
splice); in both cases the error is cleared to 0. -/
def ceph_finish_lookup (err : Int) (trace_numd : Nat) (dentry_has_inode : Bool)
    (r_last_spliced : Bool) : LookupRet × Binding :=
  if err = -ENOENT then
    if trace_numd = 0 then
      ((if dentry_has_inode then .spliced else .same_dentry), .negative)
    else
      ((if r_last_spliced then .spliced else .same_dentry), .unknown)
  else if err ≠ 0 then
    (.err_ret err, .unknown)
  else
    ((if r_last_spliced then .spliced else .same_dentry), .bound)

/-! ## Theorems -/

theorem make_fpos_eq (frag off : Nat) (hf : frag < 2 ^ 32) (ho : off < 2 ^ 32) :
    make_fpos frag off = frag * 2 ^ 32 + off := by
  unfold make_fpos
  rw [Nat.shiftLeft_eq, Nat.mul_comm frag (2 ^ 32), ← Nat.mul_add_lt_is_or ho frag,
    Nat.mod_eq_of_lt (by omega : 2 ^ 32 * frag + off < 2 ^ 64)]

/-- C1 (amended): the trustworthiness check returns true if and only if
(the recorded parent version equals the parent current version AND the
parent directory ICONTENT lease is valid) OR the dentry own lease is valid.
A version match alone does not suffice. -/
theorem ceph_dentry_revalidate_iff (s : RevalidateState) :
    ceph_dentry_revalidate s = true ↔
      (s.dir_i_version = s.d_time ∧ s.dir_icontent_lease_valid = true) ∨
        s.dentry_lease_valid = true := by
  rcases s with ⟨v, t, dl, nl⟩
  simp only [ceph_dentry_revalidate]
  by_cases h : v = t <;> cases dl <;> cases nl <;> simp [h]

/-- C1 counterexample: a node whose recorded parent version equals the parent
current version (both 5) but whose parent-directory ICONTENT lease and own
lease are both invalid is rejected by the check, contradicting the claim that
a version match alone suffices. -/
theorem ceph_dentry_revalidate_version_match_insufficient :
    (RevalidateState.mk 5 5 false false).dir_i_version
        = (RevalidateState.mk 5 5 false false).d_time ∧
      ceph_dentry_revalidate (RevalidateState.mk 5 5 false false) = false := by
  decide

/-- C2: for every (fragment, offset) pair with each component representable
in 32 bits, decoding the 64-bit cursor produced by encoding them returns
exactly the same pair: `fpos_frag (make_fpos frag off) = frag` and
`fpos_off (make_fpos frag off) = off`. -/
theorem fpos_roundtrip (frag off : Nat) (hf : frag < 2 ^ 32) (ho : off < 2 ^ 32) :
    fpos_frag (make_fpos frag off) = frag ∧ fpos_off (make_fpos frag off) = off := by
  rw [make_fpos_eq frag off hf ho]
  constructor
  · unfold fpos_frag loff_toInt
    rw [Int.fdiv_eq_ediv _ (by norm_num)]
    split_ifs with h
    · push_cast
      omega
    · push_cast
      omega
  · unfold fpos_off
    have : (0xffffffff : Nat) = 2 ^ 32 - 1 := by norm_num
    rw [this, Nat.and_pow_two_sub_one_eq_mod]
    omega

/-- C2 witness: concrete instantiation at fragment `0xabcd1234` and offset
`0x00000007`. -/
theorem fpos_roundtrip_witness :
    fpos_frag (make_fpos 0xabcd1234 7) = 0xabcd1234 ∧
      fpos_off (make_fpos 0xabcd1234 7) = 7 :=
  fpos_roundtrip 0xabcd1234 7 (by norm_num) (by norm_num)

theorem join_slash_append (ns : List (List Char)) (n : List Char) (h : ns ≠ []) :
    join_slash (ns ++ [n]) = join_slash ns ++ '/' :: n := by
  induction ns with
  | nil => exact absurd rfl h
  | cons m ms ih =>
    cases ms with
    | nil => simp [join_slash]
    | cons m2 ms2 =>
      have h2 := ih (by simp)
      simp only [List.cons_append, join_slash, List.append_eq] at h2 ⊢
      rw [h2]
      simp

theorem join_slash_length (ns : List (List Char)) (h : ns ≠ []) :
    (join_slash ns).length + 1 = (ns.map List.length).sum + ns.length := by
  induction ns with
  | nil => exact absurd rfl h
  | cons m ms ih =>
    cases ms with
    | nil => simp [join_slash]
    | cons m2 ms2 =>
      have h2 := ih (by simp)
      simp only [join_slash, List.map_cons, List.sum_cons, List.length_cons,
        List.length_append] at h2 ⊢
      omega

theorem sum_one_add_lengths (ns : List (List Char)) :
    (ns.map (fun n => 1 + n.length)).sum = ns.length + (ns.map List.length).sum := by
  induction ns with
  | nil => simp
  | cons m ms ih =>
    simp only [List.map, List.sum_cons, List.length_cons, ih]
    omega

theorem path_len_walk_ok (c : DChain) (h : chain_ok c = true) :
    path_len_walk c = .ok (((trusted_names c).map (fun n => 1 + n.length)).sum) := by
  induction c with
  | corrupt => simp [chain_ok] at h
  | droot d => simp [path_len_walk, trusted_names]
  | dnode d p ih =>
    simp only [chain_ok, Bool.and_eq_true] at h
    obtain ⟨⟨hi, hn⟩, hp⟩ := h
    by_cases hr : d.revalid
    · have hstop : stop_walk d = false := by simp [stop_walk, hi, hr]
      simp only [path_len_walk, hstop, Bool.false_eq_true, if_false, ih hp,
        trusted_names, hr, if_true, List.map_cons, List.sum_cons, Except.ok.injEq]
      omega
    · have hstop : stop_walk d = true := by
        simp [stop_walk, hi]
        simp [Bool.not_eq_true] at hr
        simp [hr]
      simp [path_len_walk, hstop, trusted_names, hr]

theorem path_fill_walk_zero (c : DChain) (h1 : chain_ok c = true)
    (h2 : trusted_names c = []) :
    path_fill_walk c 0 = .ok (0, [], stop_dentry c) := by
  cases c with
  | corrupt => simp [chain_ok] at h1
  | droot d => simp [path_fill_walk, stop_dentry]
  | dnode d p =>
    by_cases hr : d.revalid
    · simp [trusted_names, hr] at h2
    · simp [path_fill_walk, stop_dentry, hr]

theorem path_fill_walk_step (d : Dentry) (p : DChain) (k : Nat) (acc : List Char)
    (b : Dentry) (hk : path_fill_walk p (k : Int) = .ok (0, acc, b))
    (hname : d.name ≠ []) :
    path_fill_walk (DChain.dnode d p) ((k + 1 + d.name.length : Nat) : Int) =
      .ok (0, acc ++ '/' :: d.name, b) := by
  have hlen : 0 < d.name.length := List.length_pos.mpr hname
  simp only [path_fill_walk]
  rw [if_neg (by push_cast; omega)]
  have harg : (((k + 1 + d.name.length : Nat) : Int) - d.name.length) = (k : Int) + 1 := by
    push_cast
    ring
  simp only [harg]
  rw [if_neg (by omega), if_neg (by omega : ¬((k : Int) + 1 = 0))]
  have harg2 : ((k : Int) + 1 - 1) = (k : Int) := by ring
  rw [harg2, hk]
  rw [if_neg (by omega : ¬((k : Int) + 1 = 0))]
  simp

theorem path_fill_walk_step_last (d : Dentry) (p : DChain) (acc : List Char)
    (b : Dentry) (hk : path_fill_walk p 0 = .ok (0, acc, b)) (hname : d.name ≠ []) :
    path_fill_walk (DChain.dnode d p) ((d.name.length : Nat) : Int) =
      .ok (0, acc ++ d.name, b) := by
  have hlen : 0 < d.name.length := List.length_pos.mpr hname
  simp only [path_fill_walk]
  rw [if_neg (by omega)]
  have harg : (((d.name.length : Nat) : Int) - d.name.length) = (0 : Int) := by
    ring
  simp only [harg]
  norm_num
  simp [hk]

theorem trusted_names_ne_nil_name (c : DChain) (h : chain_ok c = true) (n : List Char)
    (hn : n ∈ trusted_names c) : n ≠ [] := by
  induction c with
  | corrupt => simp [trusted_names] at hn
  | droot d => simp [trusted_names] at hn
  | dnode d p ih =>
    simp only [chain_ok, Bool.and_eq_true] at h
    obtain ⟨⟨hi, hne⟩, hp⟩ := h
    by_cases hr : d.revalid
    · simp only [trusted_names, hr, if_true, List.mem_cons] at hn
      rcases hn with rfl | hn
      · simpa [List.isEmpty_iff] using hne
      · exact ih hp hn
    · simp [trusted_names, hr] at hn

theorem path_fill_walk_spec (c : DChain) (h : chain_ok c = true) :
    path_fill_walk c ((spec_path c).length : Int) =
      .ok (0, spec_path c, stop_dentry c) := by
  induction c with
  | corrupt => simp [chain_ok] at h
  | droot d => simp [spec_path, trusted_names, join_slash, path_fill_walk, stop_dentry]
  | dnode d p ih =>
    simp only [chain_ok, Bool.and_eq_true] at h
    obtain ⟨⟨hi, hne⟩, hp⟩ := h
    have hname : d.name ≠ [] := by simpa [List.isEmpty_iff] using hne
    by_cases hr : d.revalid
    · by_cases hT : trusted_names p = []
      · have hspec : spec_path (DChain.dnode d p) = d.name := by
          simp [spec_path, trusted_names, hr, hT, join_slash]
        have hstop : stop_dentry (DChain.dnode d p) = stop_dentry p := by
          simp [stop_dentry, hr]
        rw [hspec, hstop]
        exact path_fill_walk_step_last d p [] (stop_dentry p)
          (path_fill_walk_zero p hp hT) hname
      · have hrev : (trusted_names p).reverse ≠ [] := by
          simpa using hT
        have hspec : spec_path (DChain.dnode d p) = spec_path p ++ '/' :: d.name := by
          simp only [spec_path, trusted_names, hr, if_true, List.reverse_cons]
          exact join_slash_append _ _ hrev
        have hstop : stop_dentry (DChain.dnode d p) = stop_dentry p := by
          simp [stop_dentry, hr]
        rw [hspec, hstop]
        have hlen : (spec_path p ++ '/' :: d.name).length =
            (spec_path p).length + 1 + d.name.length := by
          simp [List.length_append]
          omega
        rw [hlen]
        exact path_fill_walk_step d p (spec_path p).length (spec_path p)
          (stop_dentry p) (ih hp) hname
    · have hspec : spec_path (DChain.dnode d p) = [] := by
        simp [spec_path, trusted_names, hr, join_slash]
      have hstop : stop_dentry (DChain.dnode d p) = d := by
        simp [stop_dentry, hr]
      rw [hspec, hstop]
      simp [path_fill_walk]

theorem spec_path_length (c : DChain) (_h : chain_ok c = true) :
    (if ((trusted_names c).map (fun n => 1 + n.length)).sum = 0 then 0
      else ((trusted_names c).map (fun n => 1 + n.length)).sum - 1) =
      (spec_path c).length := by
  by_cases hT : trusted_names c = []
  · simp [hT, spec_path, join_slash]
  · have hrev : (trusted_names c).reverse ≠ [] := by simpa using hT
    have hjl := join_slash_length (trusted_names c).reverse hrev
    have hsum := sum_one_add_lengths (trusted_names c)
    have hmap : ((trusted_names c).reverse.map List.length).sum =
        ((trusted_names c).map List.length).sum := by
      rw [List.map_reverse, List.sum_reverse]
    have hlen : (trusted_names c).reverse.length = (trusted_names c).length := by
      simp
    have hpos : 0 < (trusted_names c).length := List.length_pos.mpr hT
    rw [hsum, if_neg (show ¬((trusted_names c).length +
      ((trusted_names c).map List.length).sum = 0) by omega)]
    simp only [spec_path]
    omega

theorem path_fill_walk_final_len (c : DChain) (pos pfin : Int) (acc : List Char)
    (b : Dentry) (h : path_fill_walk c pos = .ok (pfin, acc, b)) (h0 : pfin = 0) :
    (acc.length : Int) = pos := by
  induction c generalizing pos pfin acc b with
  | corrupt => simp [path_fill_walk] at h
  | droot d =>
    simp only [path_fill_walk, Except.ok.injEq, Prod.mk.injEq] at h
    obtain ⟨hpos, hacc, _⟩ := h
    simp [← hacc]
    omega
  | dnode d p ih =>
    rw [path_fill_walk] at h
    by_cases hz : pos = 0
    · rw [if_pos hz] at h
      simp only [Except.ok.injEq, Prod.mk.injEq] at h
      obtain ⟨h1, h2, h3⟩ := h
      simp [← h2, hz]
    · rw [if_neg hz] at h
      simp only at h
      by_cases hneg : pos - (d.name.length : Int) < 0
      · rw [if_pos hneg] at h
        simp only [Except.ok.injEq, Prod.mk.injEq] at h
        obtain ⟨h1, h2, h3⟩ := h
        omega
      · rw [if_neg hneg] at h
        cases hrec : path_fill_walk p
            (if pos - (d.name.length : Int) = 0 then 0
              else pos - (d.name.length : Int) - 1) with
        | error e => rw [hrec] at h; simp at h
        | ok v =>
          obtain ⟨pfin2, acc2, b2⟩ := v
          rw [hrec] at h
          simp only [Except.ok.injEq, Prod.mk.injEq] at h
          obtain ⟨hpfin, hacc, hbase⟩ := h
          by_cases hz1 : pos - (d.name.length : Int) = 0
          · rw [if_pos hz1] at hrec
            have hih := ih 0 pfin2 acc2 b2 hrec (by omega)
            rw [← hacc, if_pos hz1]
            simp [List.length_append]
            omega
          · rw [if_neg hz1] at hrec
            have hih := ih _ pfin2 acc2 b2 hrec (by omega)
            rw [← hacc, if_neg hz1]
            simp [List.length_append]
            omega

theorem build_attempt_some_len (c1 c2 : DChain) (r : PathResult)
    (h : build_attempt c1 c2 = .ok (some r)) : r.path.length = r.plen := by
  unfold build_attempt at h
  cases h1 : path_len_walk c1 with
  | error e => rw [h1] at h; simp at h
  | ok rawlen =>
    rw [h1] at h
    simp only at h
    cases h2 : path_fill_walk c2 ((if rawlen = 0 then 0 else rawlen - 1 : Nat) : Int) with
    | error e => rw [h2] at h; simp at h
    | ok v =>
      obtain ⟨pfin, acc, base⟩ := v
      rw [h2] at h
      simp only at h
      by_cases hz : pfin ≠ 0
      · rw [if_pos hz] at h
        simp at h
      · rw [if_neg hz] at h
        simp only [not_not] at hz
        have hlen := path_fill_walk_final_len c2 _ _ _ _ h2 hz
        simp only [Except.ok.injEq, Option.some.injEq] at h
        subst h
        simp only
        omega

theorem path_len_walk_corrupt (c : DChain) (h : walk_hits_corrupt c = true) :
    path_len_walk c = .error EINVAL := by
  induction c with
  | corrupt => rfl
  | droot d => simp [walk_hits_corrupt] at h
  | dnode d p ih =>
    simp only [walk_hits_corrupt, Bool.and_eq_true, Bool.not_eq_true'] at h
    obtain ⟨hs, hp⟩ := h
    simp [path_len_walk, hs, ih hp]

/-- C3: for every non-null starting node whose chain snapshot is well formed
(reaches a root, every dentry binds an inode, names nonempty) and is observed
unchanged by both passes, path construction walks from the target toward the
root, stops accumulating at the first ancestor that is not trustworthy (or at
the root), and returns the accumulated name components written in
root-to-leaf order separated by slash with no leading separator, together
with the stopping ancestor inode as base identity and the path length. -/
theorem ceph_build_dentry_path_spec (c : DChain) (h : chain_ok c = true) :
    ceph_build_dentry_path (some [(c, c)]) =
      .ok (some ⟨spec_path c, (spec_path c).length, (stop_dentry c).ino⟩) := by
  have h1 := path_len_walk_ok c h
  have h2 := path_fill_walk_spec c h
  have h3 := spec_path_length c h
  simp only [ceph_build_dentry_path, build_retry, build_attempt, h1, h3, h2]
  simp

/-- C3 witness: a three-level chain whose middle ancestor fails revalidation;
the walk stops there, yielding path "b", length 1, base inode 10. -/
theorem ceph_build_dentry_path_spec_witness :
    ceph_build_dentry_path
        (some [(DChain.dnode ⟨['b'], 20, true, true⟩
                  (DChain.dnode ⟨['a'], 10, true, false⟩ (DChain.droot ⟨['r'], 1, true, true⟩)),
                DChain.dnode ⟨['b'], 20, true, true⟩
                  (DChain.dnode ⟨['a'], 10, true, false⟩ (DChain.droot ⟨['r'], 1, true, true⟩)))]) =
      .ok (some ⟨['b'], 1, 10⟩) := by
  have := ceph_build_dentry_path_spec
    (DChain.dnode ⟨['b'], 20, true, true⟩
      (DChain.dnode ⟨['a'], 10, true, false⟩ (DChain.droot ⟨['r'], 1, true, true⟩)))
    (by decide)
  simpa using this

/-- C4: whenever the length computed by the first pass disagrees with the
length consumed by the second pass (the fill pass ends at a nonzero
position), the resolver discards the partial path and restarts the walk on
the next snapshot; consequently any successfully returned path has its
declared length equal to the length of its content. -/
theorem ceph_build_dentry_path_mismatch_restart :
    (∀ (c1 c2 : DChain) (rest : List (DChain × DChain)) (rawlen : Nat)
        (pfin : Int) (acc : List Char) (b : Dentry),
        path_len_walk c1 = .ok rawlen →
        path_fill_walk c2 ((if rawlen = 0 then 0 else rawlen - 1 : Nat) : Int) =
          .ok (pfin, acc, b) →
        pfin ≠ 0 →
        build_retry ((c1, c2) :: rest) = build_retry rest) ∧
      (∀ (attempts : List (DChain × DChain)) (r : PathResult),
        build_retry attempts = .ok (some r) → r.path.length = r.plen) := by
  constructor
  · intro c1 c2 rest rawlen pfin acc b h1 h2 hne
    simp only [build_retry, build_attempt, h1, h2, if_pos hne]
  · intro attempts
    induction attempts with
    | nil => intro r h; simp [build_retry] at h
    | cons a rest ih =>
      obtain ⟨c1, c2⟩ := a
      intro r h
      rw [build_retry] at h
      cases ha : build_attempt c1 c2 with
      | error e => rw [ha] at h; simp at h
      | ok v =>
        cases v with
        | none => rw [ha] at h; exact ih r h
        | some r2 =>
          rw [ha] at h
          simp only [Except.ok.injEq, Option.some.injEq] at h
          subst h
          exact build_attempt_some_len c1 c2 r2 ha

/-- C4 witness: a mismatching snapshot pair (first pass sees one component,
second pass sees an immediate root) restarts the loop, and a successful
attempt returns declared length equal to content length. -/
theorem ceph_build_dentry_path_mismatch_restart_witness :
    build_retry [(DChain.dnode ⟨['a'], 7, true, true⟩ (DChain.droot ⟨['r'], 1, true, true⟩),
                  DChain.droot ⟨['r'], 1, true, true⟩)] = build_retry [] ∧
      (⟨['a'], 1, 1⟩ : PathResult).path.length = (⟨['a'], 1, 1⟩ : PathResult).plen := by
  constructor
  · exact ceph_build_dentry_path_mismatch_restart.1
      (DChain.dnode ⟨['a'], 7, true, true⟩ (DChain.droot ⟨['r'], 1, true, true⟩))
      (DChain.droot ⟨['r'], 1, true, true⟩) [] 2 1 [] ⟨['r'], 1, true, true⟩
      (by rfl) (by rfl) (by decide)
  · exact ceph_build_dentry_path_mismatch_restart.2
      [(DChain.dnode ⟨['a'], 7, true, true⟩ (DChain.droot ⟨['r'], 1, true, true⟩),
        DChain.dnode ⟨['a'], 7, true, true⟩ (DChain.droot ⟨['r'], 1, true, true⟩))]
      ⟨['a'], 1, 1⟩ (by rfl)

/-- C9 counterexample: when a parent reference is absent mid-walk the
function returns the same EINVAL (InvalidArgument) error it returns for a
null starting node, not a distinct corrupt-state error. -/
theorem ceph_build_dentry_path_corrupt_einval :
    ceph_build_dentry_path
        (some [(DChain.dnode ⟨['a'], 1, true, true⟩ DChain.corrupt,
                DChain.dnode ⟨['a'], 1, true, true⟩ DChain.corrupt)]) = .error EINVAL ∧
      ceph_build_dentry_path none = .error EINVAL := by
  constructor
  · rfl
  · rfl

/-- C9 (amended): path construction fails with InvalidArgument (EINVAL) when
the starting node is null, and likewise fails with the same InvalidArgument
error (after logging a corrupt-dentry diagnostic) when a parent reference is
unexpectedly absent mid-walk. -/
theorem ceph_build_dentry_path_errors :
    ceph_build_dentry_path none = .error EINVAL ∧
      ∀ (c1 c2 : DChain) (rest : List (DChain × DChain)),
        walk_hits_corrupt c1 = true →
        ceph_build_dentry_path (some ((c1, c2) :: rest)) = .error EINVAL := by
  constructor
  · rfl
  · intro c1 c2 rest h
    simp [ceph_build_dentry_path, build_retry, build_attempt, path_len_walk_corrupt c1 h]

/-- C9 witness: the null case and a concrete two-level chain whose parent
pointer is NULL mid-walk. -/
theorem ceph_build_dentry_path_errors_witness :
    ceph_build_dentry_path
        (some [(DChain.dnode ⟨['x'], 3, true, true⟩ DChain.corrupt,
                DChain.droot ⟨['r'], 1, true, true⟩)]) = .error EINVAL :=
  ceph_build_dentry_path_errors.2
    (DChain.dnode ⟨['x'], 3, true, true⟩ DChain.corrupt)
    (DChain.droot ⟨['r'], 1, true, true⟩) [] (by decide)

/-- C5: `.` (cursor `make_fpos(0,0)`) and `..` (cursor `make_fpos(0,1)`) are
synthesized only for the leftmost fragment: a non-leftmost fragment serves
`entries[off]` directly (first conjunct), while the leftmost fragment at
offset 0 yields them before its entries, which start at offset 2 (second
conjunct); after the entries of a fragment are exhausted, if the fragment
value differs from its mask the enumeration advances to the next fragment
at offset 0 (visible in the first two conjuncts), and if the value equals
the mask the enumeration terminates with no further output (third
conjunct); and for a directory of 3 entries split over 2 fragments,
reading from cursor 0 yields `.`, `..`, the two entries of the first fragment,
then the entry of the second fragment, then exhaustion (fourth conjunct). -/
theorem ceph_readdir_spec :
    (∀ (fuel : Nat) (choose : Nat → Frag) (listing : Frag → List DirEntry)
        (hp : Bool) (v off : Nat),
        frag_is_leftmost (choose v) = false →
        ceph_readdir (fuel + 1) choose listing hp v off =
          emit_entries (choose v) ((listing (choose v)).drop off) off ++
            (if frag_value (choose v) ≠ frag_mask (choose v) then
              ceph_readdir fuel choose listing hp (frag_next_value (choose v)) 0
            else [])) ∧
      (∀ (fuel : Nat) (choose : Nat → Frag) (listing : Frag → List DirEntry)
          (v : Nat),
          frag_is_leftmost (choose v) = true →
          ceph_readdir (fuel + 1) choose listing true v 0 =
            (['.'], make_fpos 0 0) :: (['.', '.'], make_fpos 0 1) ::
              (emit_entries (choose v) (listing (choose v)) 2 ++
                (if frag_value (choose v) ≠ frag_mask (choose v) then
                  ceph_readdir fuel choose listing true (frag_next_value (choose v)) 0
                else []))) ∧
      (∀ (fuel : Nat) (choose : Nat → Frag) (listing : Frag → List DirEntry)
          (hp : Bool) (v off : Nat),
          frag_value (choose v) = frag_mask (choose v) →
          frag_is_leftmost (choose v) = false →
          ceph_readdir (fuel + 1) choose listing hp v off =
            emit_entries (choose v) ((listing (choose v)).drop off) off) ∧
      ceph_readdir 2
          (fun v => if v < 0x80000000 then Frag.mk 0 0x80000000
            else Frag.mk 0x80000000 0x80000000)
          (fun f => if f.value = 0 then [⟨['e', '1'], 101⟩, ⟨['e', '2'], 102⟩]
            else [⟨['e', '3'], 103⟩])
          true (fpos_frag 0) (fpos_off 0) =
        [(['.'], 0), (['.', '.'], 1), (['e', '1'], 2), (['e', '2'], 3),
          (['e', '3'], 0x8000000000000000)] := by
  refine ⟨?_, ?_, ?_, ?_⟩
  · intro fuel choose listing hp v off h
    simp [ceph_readdir, h]
  · intro fuel choose listing v h
    simp [ceph_readdir, h]
  · intro fuel choose listing hp v off hlast h
    simp [ceph_readdir, h, hlast]
  · rfl

/-- C5 witness: the non-leftmost conjunct applied to the second fragment of the scenario, and the leftmost conjunct applied to its first fragment. -/
theorem ceph_readdir_spec_witness :
    ceph_readdir 1
        (fun v => if v < 0x80000000 then Frag.mk 0 0x80000000
          else Frag.mk 0x80000000 0x80000000)
        (fun f => if f.value = 0 then [⟨['e', '1'], 101⟩, ⟨['e', '2'], 102⟩]
          else [⟨['e', '3'], 103⟩])
        true 0x80000000 0 =
      emit_entries (Frag.mk 0x80000000 0x80000000) [⟨['e', '3'], 103⟩] 0 := by
  have h := ceph_readdir_spec.1 0
    (fun v => if v < 0x80000000 then Frag.mk 0 0x80000000
      else Frag.mk 0x80000000 0x80000000)
    (fun f => if f.value = 0 then [⟨['e', '1'], 101⟩, ⟨['e', '2'], 102⟩]
      else [⟨['e', '3'], 103⟩])
    true 0x80000000 0 (by decide)
  simpa using h

/-- C6 counterexample: a successful link reply carrying no trace performs no
re-lookup (no `do_lookup` effect) yet applies the speculative link-count
increment, contradicting the claim that every mutating opcode, including
link, re-looks-up and reverts. -/
theorem ceph_link_no_trace_counterexample :
    Eff.do_lookup ∉ ceph_link_actions true 0 0 ∧
      Eff.inc_nlink ∈ ceph_link_actions true 0 0 := by
  decide

/-- C6 (amended): on a reply carrying no trace, only mknod falls back to an
explicit re-lookup, failing with `-ESTALE` (and dropping the dentry) when
the re-lookup finds the name bound elsewhere; link instead speculatively
increments the link count and instantiates the dentry with no re-lookup and
no revert. -/
theorem ceph_mknod_relookup_ceph_link_speculates :
    (∀ lf : Bool,
        ceph_mknod_actions true 0 0 lf =
          [.build_path, .create_request .mknod, .lease_release_parent_content,
            .dispatch, .do_lookup] ++ (if lf then [.d_drop] else []) ∧
          ceph_mknod_result 0 0 lf = (if lf then -ESTALE else 0)) ∧
      ceph_link_actions true 0 0 =
        [.build_path, .build_path, .create_request .link,
          .lease_release_parent_content, .dispatch, .inc_nlink, .d_instantiate] := by
  constructor
  · intro lf
    cases lf <;> exact ⟨by decide, by decide⟩
  · decide

/-- C7: a lookup completing with `-ENOENT` and an empty trace binds the
target to the explicit known-negative state and returns the caller a
dentry (the same one or a fresh negative splice), never an error. -/
theorem ceph_finish_lookup_negative (dh rs : Bool) :
    ceph_finish_lookup (-ENOENT) 0 dh rs =
      ((if dh then LookupRet.spliced else LookupRet.same_dentry), Binding.negative) := by
  cases dh <;> cases rs <;> decide

/-- C8: every mutating operation (mknod, symlink, mkdir, link,
unlink/rmdir, rename) releases the lease on the content binding of the affected parent before the request is dispatched to the network: scanning each
effect sequence from the start reaches the parent-content lease release
before any dispatch. -/
theorem lease_release_before_dispatch_all :
    (∀ (req_ok lf : Bool) (err : Int) (numd : Nat),
        lease_released_before_dispatch (ceph_mknod_actions req_ok err numd lf) = true) ∧
      (∀ (req_ok : Bool) (err : Int),
        lease_released_before_dispatch (ceph_symlink_actions req_ok err) = true) ∧
      (∀ (req_ok : Bool) (err : Int),
        lease_released_before_dispatch (ceph_mkdir_actions req_ok err) = true) ∧
      (∀ (req_ok : Bool) (err : Int) (numd : Nat),
        lease_released_before_dispatch (ceph_link_actions req_ok err numd) = true) ∧
      (∀ (mode : Nat) (req_ok : Bool) (err : Int) (numd : Nat),
        lease_released_before_dispatch (ceph_unlink_actions mode req_ok err numd) = true) ∧
      (∀ (req_ok new_hi : Bool) (err : Int) (numd : Nat),
        lease_released_before_dispatch (ceph_rename_actions req_ok err numd new_hi) = true) := by
  refine ⟨?_, ?_, ?_, ?_, ?_, ?_⟩
  · intro req_ok lf err numd
    cases req_ok <;> simp [ceph_mknod_actions, lease_released_before_dispatch]
  · intro req_ok err
    cases req_ok <;> simp [ceph_symlink_actions, lease_released_before_dispatch]
  · intro req_ok err
    cases req_ok <;> simp [ceph_mkdir_actions, lease_released_before_dispatch]
  · intro req_ok err numd
    cases req_ok <;> simp [ceph_link_actions, lease_released_before_dispatch]
  · intro mode req_ok err numd
    cases req_ok <;> simp [ceph_unlink_actions, lease_released_before_dispatch]
  · intro req_ok new_hi err numd
    cases req_ok <;> simp [ceph_rename_actions, lease_released_before_dispatch]

/-- C10: the unlink entry point serves both unlink and rmdir: a target
whose bound inode mode has the directory file type issues the RMDIR
opcode, any other mode issues UNLINK, and the operations table registers
the same function for both the unlink and the rmdir slots. -/
theorem ceph_unlink_serves_both :
    (∀ mode : Nat,
        (mode &&& S_IFMT = S_IFDIR → ceph_unlink_op mode = .rmdir) ∧
          (mode &&& S_IFMT ≠ S_IFDIR → ceph_unlink_op mode = .unlink)) ∧
      ceph_dir_iops.unlink = VfsFn.ceph_unlink ∧
      ceph_dir_iops.rmdir = VfsFn.ceph_unlink := by
  refine ⟨?_, rfl, rfl⟩
  intro mode
  constructor
  · intro h
    simp [ceph_unlink_op, h]
  · intro h
    simp [ceph_unlink_op, h]

/-- C10 witness: a directory mode 040755 selects RMDIR; a regular-file mode
0100644 selects UNLINK. -/
theorem ceph_unlink_serves_both_witness :
    ceph_unlink_op 0o40755 = MdsOp.rmdir ∧ ceph_unlink_op 0o100644 = MdsOp.unlink :=
  ⟨(ceph_unlink_serves_both.1 0o40755).1 (by decide),
    (ceph_unlink_serves_both.1 0o100644).2 (by decide)⟩
